import Mathlib

/-!
Verification of the ViTPose inference pipeline (`inference.py`) against its
natural-language specification.

The development shallowly embeds the pipeline's pure content:
* `pad_image` (aspect-ratio padding, `inference.py` lines 22-45) over an
  explicit image model `Img`, with `np.pad(..., mode='constant')` modelled by
  `padConstant` and Python's `int()` / `//` modelled by `pyInt` / `Int.fdiv`;
* `VideoReader` (lines 48-66) as a state machine over a finite list of frames,
  with the cv2 capture handle's operations recorded as an explicit trace;
* the still-image reader and the extension-based dispatch of `__main__`
  (lines 138-142), with Python's `str.rfind` and negative-index slicing
  modelled exactly;
* the keypoint assembly step of `inference` (line 91), fed by a model of
  `keypoints_from_heatmaps` (which lives in `utils/top_down_eval.py`, outside
  the sources at hand) built from the specification's description of the
  decoder.
-/

namespace VitPose

/-- An image in the sense of the pipeline: an `H × W × C` array of integer
pixel intensities, read as `pix row col channel`.  Entries outside the
`H × W × C` box are irrelevant to every statement below. -/
structure Img where
  H : ℕ
  W : ℕ
  C : ℕ
  pix : ℕ → ℕ → ℕ → ℤ

/-- Model of `np.pad(image, ((top, bottom), (left, right), (0, 0)),
mode='constant')`: the content block is shifted by `(top, left)` and every
added border pixel is `0`. -/
def padConstant (img : Img) (top bottom left right : ℕ) : Img :=
  { H := top + img.H + bottom
    W := left + img.W + right
    C := img.C
    pix := fun y x c =>
      if top ≤ y ∧ y < top + img.H ∧ left ≤ x ∧ x < left + img.W then
        img.pix (y - top) (x - left) c
      else 0 }

/-- Python's `int()` on a rational value: truncation toward zero. -/
def pyInt (q : ℚ) : ℤ := if 0 ≤ q then ⌊q⌋ else -⌊-q⌋

/-- Embedding of `pad_image` (`inference.py` lines 22-45).  Python's float
arithmetic is modelled over `ℚ`; `int()` is `pyInt` and the floor division
`// 2` of the nonneg pad is `Int.fdiv · 2`. -/
def pad_image (img : Img) (aspect_ratio : ℚ) : Img :=
  let current_aspect_ratio : ℚ := (img.W : ℚ) / (img.H : ℚ)
  if current_aspect_ratio < aspect_ratio then
    let target_width : ℤ := pyInt (aspect_ratio * (img.H : ℚ))
    let pad_width : ℤ := target_width - (img.W : ℤ)
    let left_pad : ℤ := Int.fdiv pad_width 2
    let right_pad : ℤ := pad_width - left_pad
    padConstant img 0 0 left_pad.toNat right_pad.toNat
  else
    let target_height : ℤ := pyInt ((img.W : ℚ) / aspect_ratio)
    let pad_height : ℤ := target_height - (img.H : ℤ)
    let top_pad : ℤ := Int.fdiv pad_height 2
    let bottom_pad : ℤ := pad_height - top_pad
    padConstant img top_pad.toNat bottom_pad.toNat 0 0

/-- The `target_width` of `pad_image`'s horizontal branch. -/
def targetWidth (img : Img) (ar : ℚ) : ℤ := pyInt (ar * (img.H : ℚ))

/-- The `target_height` of `pad_image`'s vertical branch. -/
def targetHeight (img : Img) (ar : ℚ) : ℤ := pyInt ((img.W : ℚ) / ar)

/-- Top pad applied by `pad_image` (0 in the horizontal branch). -/
def padTop (img : Img) (ar : ℚ) : ℕ :=
  if (img.W : ℚ) / (img.H : ℚ) < ar then 0
  else ((targetHeight img ar - (img.H : ℤ)).fdiv 2).toNat

/-- Bottom pad applied by `pad_image` (0 in the horizontal branch). -/
def padBottom (img : Img) (ar : ℚ) : ℕ :=
  if (img.W : ℚ) / (img.H : ℚ) < ar then 0
  else
    (targetHeight img ar - (img.H : ℤ) -
      (targetHeight img ar - (img.H : ℤ)).fdiv 2).toNat

/-- Left pad applied by `pad_image` (0 in the vertical branch). -/
def padLeft (img : Img) (ar : ℚ) : ℕ :=
  if (img.W : ℚ) / (img.H : ℚ) < ar then
    ((targetWidth img ar - (img.W : ℤ)).fdiv 2).toNat
  else 0

/-- Right pad applied by `pad_image` (0 in the vertical branch). -/
def padRight (img : Img) (ar : ℚ) : ℕ :=
  if (img.W : ℚ) / (img.H : ℚ) < ar then
    (targetWidth img ar - (img.W : ℤ) -
      (targetWidth img ar - (img.W : ℤ)).fdiv 2).toNat
  else 0

lemma pad_image_eq (img : Img) (ar : ℚ) :
    pad_image img ar =
      padConstant img (padTop img ar) (padBottom img ar)
        (padLeft img ar) (padRight img ar) := by
  unfold pad_image padTop padBottom padLeft padRight targetWidth targetHeight
  by_cases h : (img.W : ℚ) / (img.H : ℚ) < ar <;> simp [h]

lemma padConstant_pix_in (img : Img) (t b l r y x c : ℕ)
    (hy : y < img.H) (hx : x < img.W) :
    (padConstant img t b l r).pix (t + y) (l + x) c = img.pix y x c := by
  show (if t ≤ t + y ∧ t + y < t + img.H ∧ l ≤ l + x ∧ l + x < l + img.W then
      img.pix (t + y - t) (l + x - l) c else 0) = img.pix y x c
  rw [if_pos (by omega)]
  congr 2 <;> omega

lemma padConstant_pix_out (img : Img) (t b l r y x c : ℕ)
    (h : ¬(t ≤ y ∧ y < t + img.H ∧ l ≤ x ∧ x < l + img.W)) :
    (padConstant img t b l r).pix y x c = 0 := by
  show (if t ≤ y ∧ y < t + img.H ∧ l ≤ x ∧ x < l + img.W then
      img.pix (y - t) (x - l) c else 0) = 0
  rw [if_neg h]

lemma targetWidth_ge (img : Img) (ar : ℚ)
    (h : (img.W : ℚ) / (img.H : ℚ) < ar) (hH : 0 < img.H) :
    (img.W : ℤ) ≤ targetWidth img ar := by
  have hH' : (0 : ℚ) < (img.H : ℚ) := by exact_mod_cast hH
  have hw : (img.W : ℚ) < ar * (img.H : ℚ) := by
    rw [div_lt_iff₀ hH'] at h
    exact h
  have hnn : (0 : ℚ) ≤ ar * (img.H : ℚ) :=
    le_of_lt (lt_of_le_of_lt (by positivity) hw)
  unfold targetWidth pyInt
  rw [if_pos hnn]
  exact Int.le_floor.mpr (by exact_mod_cast le_of_lt hw)

lemma targetHeight_ge (img : Img) (ar : ℚ)
    (h : ¬((img.W : ℚ) / (img.H : ℚ) < ar)) (har : 0 < ar) :
    (img.H : ℤ) ≤ targetHeight img ar := by
  push_neg at h
  have hH' : (0 : ℚ) < (img.H : ℚ) := by
    rcases Nat.eq_zero_or_pos img.H with h0 | hpos
    · exfalso
      rw [h0] at h
      simp at h
      exact absurd (lt_of_lt_of_le har h) (lt_irrefl 0)
    · exact_mod_cast hpos
  have hw : ar * (img.H : ℚ) ≤ (img.W : ℚ) := by
    rw [le_div_iff₀ hH'] at h
    exact h
  have hh : (img.H : ℚ) ≤ (img.W : ℚ) / ar := by
    rw [le_div_iff₀ har]
    calc (img.H : ℚ) * ar = ar * (img.H : ℚ) := by ring
    _ ≤ (img.W : ℚ) := hw
  have hnn : (0 : ℚ) ≤ (img.W : ℚ) / ar :=
    le_trans (by positivity) hh
  unfold targetHeight pyInt
  rw [if_pos hnn]
  exact Int.le_floor.mpr (by exact_mod_cast hh)

lemma padTop_of_lt {img : Img} {ar : ℚ} (h : (img.W : ℚ) / (img.H : ℚ) < ar) :
    padTop img ar = 0 := by unfold padTop; rw [if_pos h]

lemma padTop_of_ge {img : Img} {ar : ℚ} (h : ¬((img.W : ℚ) / (img.H : ℚ) < ar)) :
    padTop img ar = ((targetHeight img ar - (img.H : ℤ)).fdiv 2).toNat := by
  unfold padTop; rw [if_neg h]

lemma padBottom_of_lt {img : Img} {ar : ℚ} (h : (img.W : ℚ) / (img.H : ℚ) < ar) :
    padBottom img ar = 0 := by unfold padBottom; rw [if_pos h]

lemma padBottom_of_ge {img : Img} {ar : ℚ} (h : ¬((img.W : ℚ) / (img.H : ℚ) < ar)) :
    padBottom img ar =
      (targetHeight img ar - (img.H : ℤ) -
        (targetHeight img ar - (img.H : ℤ)).fdiv 2).toNat := by
  unfold padBottom; rw [if_neg h]

lemma padLeft_of_lt {img : Img} {ar : ℚ} (h : (img.W : ℚ) / (img.H : ℚ) < ar) :
    padLeft img ar = ((targetWidth img ar - (img.W : ℤ)).fdiv 2).toNat := by
  unfold padLeft; rw [if_pos h]

lemma padLeft_of_ge {img : Img} {ar : ℚ} (h : ¬((img.W : ℚ) / (img.H : ℚ) < ar)) :
    padLeft img ar = 0 := by unfold padLeft; rw [if_neg h]

lemma padRight_of_lt {img : Img} {ar : ℚ} (h : (img.W : ℚ) / (img.H : ℚ) < ar) :
    padRight img ar =
      (targetWidth img ar - (img.W : ℤ) -
        (targetWidth img ar - (img.W : ℤ)).fdiv 2).toNat := by
  unfold padRight; rw [if_pos h]

lemma padRight_of_ge {img : Img} {ar : ℚ} (h : ¬((img.W : ℚ) / (img.H : ℚ) < ar)) :
    padRight img ar = 0 := by unfold padRight; rw [if_neg h]

/-- The 3(H) × 2(W) × 3 test frame used to separate rounding from truncation. -/
def img3x2 : Img := ⟨3, 2, 3, fun y x c => (100 * y + 10 * x + c : ℤ)⟩

/-- The 100(H) × 200(W) × 3 frame of the specification's worked example. -/
def ex100 : Img := ⟨100, 200, 3, fun y x c => (1000 * y + 3 * x + c : ℤ)⟩

/-- C1, counterexample: on a 3(H)×2(W) frame with `ar = 7/8` the horizontal
branch is taken, and the code's padded width is `int(7/8 * 3) = 2` while the
claim's `round(7/8 * 3) = 3`; the two disagree, so `pad_image` does not
compute the enlarged dimension by rounding. -/
theorem C1_round_counterexample :
    ((img3x2.W : ℚ) / (img3x2.H : ℚ) < 7/8) ∧
    (pad_image img3x2 (7/8)).W = 2 ∧
    (round ((7/8 : ℚ) * (img3x2.H : ℚ))).toNat = 3 ∧
    (pad_image img3x2 (7/8)).W ≠ (round ((7/8 : ℚ) * (img3x2.H : ℚ))).toNat := by
  have hc : (img3x2.W : ℚ) / (img3x2.H : ℚ) < 7/8 := by norm_num [img3x2]
  have hti : targetWidth img3x2 (7/8) = 2 := by
    unfold targetWidth pyInt
    rw [if_pos (by norm_num [img3x2])]
    norm_num [img3x2, Int.floor_eq_iff]
  have hrd : round ((7/8 : ℚ) * (img3x2.H : ℚ)) = 3 := by
    norm_num [img3x2, round_eq, Int.floor_eq_iff]
  have hw : (pad_image img3x2 (7/8)).W = 2 := by
    rw [pad_image_eq]
    show padLeft img3x2 (7/8) + img3x2.W + padRight img3x2 (7/8) = 2
    rw [padLeft_of_lt hc, padRight_of_lt hc, hti]
    decide
  refine ⟨hc, hw, by rw [hrd]; rfl, by rw [hw, hrd]; decide⟩

/-- C1, amended: `pad_image` computes the enlarged dimension by truncation
toward zero (Python `int()`, embedded as `pyInt` inside `targetWidth` /
`targetHeight`), not by rounding; with that change the claim holds: when
`width/height < ar` the padded width is `int(ar * height)`, split as
`left = pad // 2`, `right = pad - left`; otherwise the padded height is
`int(width / ar)`, split as `top = pad // 2`, `bottom = pad - top`. -/
theorem C1_pad_truncation (img : Img) (ar : ℚ)
    (hH : 0 < img.H) (hW : 0 < img.W) (har : 0 < ar) :
    (((img.W : ℚ) / (img.H : ℚ) < ar) →
      (pad_image img ar).H = img.H ∧
      (pad_image img ar).W = (targetWidth img ar).toNat ∧
      padLeft img ar = ((targetWidth img ar).toNat - img.W) / 2 ∧
      padRight img ar =
        ((targetWidth img ar).toNat - img.W) -
          ((targetWidth img ar).toNat - img.W) / 2 ∧
      padTop img ar = 0 ∧ padBottom img ar = 0) ∧
    (¬((img.W : ℚ) / (img.H : ℚ) < ar) →
      (pad_image img ar).W = img.W ∧
      (pad_image img ar).H = (targetHeight img ar).toNat ∧
      padTop img ar = ((targetHeight img ar).toNat - img.H) / 2 ∧
      padBottom img ar =
        ((targetHeight img ar).toNat - img.H) -
          ((targetHeight img ar).toNat - img.H) / 2 ∧
      padLeft img ar = 0 ∧ padRight img ar = 0) := by
  constructor
  · intro h
    have htw : (img.W : ℤ) ≤ targetWidth img ar := targetWidth_ge img ar h hH
    have hfd : (targetWidth img ar - (img.W : ℤ)).fdiv 2 =
        (targetWidth img ar - (img.W : ℤ)) / 2 :=
      Int.fdiv_eq_ediv _ (by norm_num)
    rw [pad_image_eq]
    rw [padTop_of_lt h, padBottom_of_lt h, padLeft_of_lt h, padRight_of_lt h, hfd]
    show (0 + img.H + 0 = img.H) ∧
      (((targetWidth img ar - (img.W : ℤ)) / 2).toNat + img.W +
        (targetWidth img ar - (img.W : ℤ) -
          (targetWidth img ar - (img.W : ℤ)) / 2).toNat =
        (targetWidth img ar).toNat) ∧ _ ∧ _ ∧ (0 = 0) ∧ (0 = 0)
    refine ⟨by omega, by omega, by omega, by omega, rfl, rfl⟩
  · intro h
    have hth : (img.H : ℤ) ≤ targetHeight img ar := targetHeight_ge img ar h har
    have hfd : (targetHeight img ar - (img.H : ℤ)).fdiv 2 =
        (targetHeight img ar - (img.H : ℤ)) / 2 :=
      Int.fdiv_eq_ediv _ (by norm_num)
    rw [pad_image_eq]
    rw [padTop_of_ge h, padBottom_of_ge h, padLeft_of_ge h, padRight_of_ge h, hfd]
    show (0 + img.W + 0 = img.W) ∧
      (((targetHeight img ar - (img.H : ℤ)) / 2).toNat + img.H +
        (targetHeight img ar - (img.H : ℤ) -
          (targetHeight img ar - (img.H : ℤ)) / 2).toNat =
        (targetHeight img ar).toNat) ∧ _ ∧ _ ∧ (0 = 0) ∧ (0 = 0)
    refine ⟨by omega, by omega, by omega, by omega, rfl, rfl⟩

/-- C1, witness: the amended theorem applied to the concrete 3(H)×2(W) frame
with target ratio 7/8 (horizontal branch). -/
theorem C1_pad_truncation_witness :
    0 < img3x2.H ∧ 0 < img3x2.W ∧ (0 : ℚ) < 7/8 ∧
    ((img3x2.W : ℚ) / (img3x2.H : ℚ) < 7/8) ∧
    ((pad_image img3x2 (7/8)).H = img3x2.H ∧
      (pad_image img3x2 (7/8)).W = (targetWidth img3x2 (7/8)).toNat ∧
      padLeft img3x2 (7/8) = ((targetWidth img3x2 (7/8)).toNat - img3x2.W) / 2 ∧
      padRight img3x2 (7/8) =
        ((targetWidth img3x2 (7/8)).toNat - img3x2.W) -
          ((targetWidth img3x2 (7/8)).toNat - img3x2.W) / 2 ∧
      padTop img3x2 (7/8) = 0 ∧ padBottom img3x2 (7/8) = 0) :=
  ⟨by decide, by decide, by norm_num, by norm_num [img3x2],
    (C1_pad_truncation img3x2 (7/8) (by decide) (by decide)
      (by norm_num)).1 (by norm_num [img3x2])⟩

/-- C2: padding the 100(H)×200(W)×3 frame to target ratio 3/4 takes the
vertical branch (200/100 = 2 is not < 3/4) and yields a 266×200×3 frame with
top pad 83 and bottom pad 83, the original content occupying rows
[83, 183). -/
theorem C2_example_100x200 :
    ¬((ex100.W : ℚ) / (ex100.H : ℚ) < 3/4) ∧
    (pad_image ex100 (3/4)).H = 266 ∧
    (pad_image ex100 (3/4)).W = 200 ∧
    (pad_image ex100 (3/4)).C = 3 ∧
    padTop ex100 (3/4) = 83 ∧
    padBottom ex100 (3/4) = 83 ∧
    ∀ y x c, y < 100 → x < 200 →
      (pad_image ex100 (3/4)).pix (83 + y) x c = ex100.pix y x c := by
  have hc : ¬((ex100.W : ℚ) / (ex100.H : ℚ) < 3/4) := by norm_num [ex100]
  have hth : targetHeight ex100 (3/4) = 266 := by
    unfold targetHeight pyInt
    rw [if_pos (by norm_num [ex100])]
    norm_num [ex100, Int.floor_eq_iff]
  have htop : padTop ex100 (3/4) = 83 := by
    rw [padTop_of_ge hc, hth]; decide
  have hbot : padBottom ex100 (3/4) = 83 := by
    rw [padBottom_of_ge hc, hth]; decide
  have heq : pad_image ex100 (3/4) = padConstant ex100 83 83 0 0 := by
    rw [pad_image_eq, htop, hbot, padLeft_of_ge hc, padRight_of_ge hc]
  refine ⟨hc, by rw [heq]; rfl, by rw [heq]; rfl, by rw [heq]; rfl, htop, hbot,
    fun y x c hy hx => ?_⟩
  rw [heq]
  have h1 := padConstant_pix_in ex100 83 83 0 0 y x c hy hx
  rw [Nat.zero_add] at h1
  exact h1

/-- C2, witness: the preserved-content clause of `C2_example_100x200`
instantiated at the pixel (0, 0, 0). -/
theorem C2_example_100x200_witness :
    (pad_image ex100 (3/4)).pix 83 0 0 = ex100.pix 0 0 0 :=
  C2_example_100x200.2.2.2.2.2.2 0 0 0 (by decide) (by decide)

/-- C3: for every frame with positive dimensions and positive target ratio,
`pad_image` preserves every original pixel shifted by `(left, top)`, sets all
added border pixels to zero, and when the total pad on the padded axis is odd
the extra pixel goes to the trailing side (right or bottom). -/
theorem C3_content_preservation (img : Img) (ar : ℚ)
    (hH : 0 < img.H) (hW : 0 < img.W) (har : 0 < ar) :
    (∀ y x c, y < img.H → x < img.W →
      (pad_image img ar).pix (padTop img ar + y) (padLeft img ar + x) c =
        img.pix y x c) ∧
    (∀ y x c,
      ¬(padTop img ar ≤ y ∧ y < padTop img ar + img.H ∧
        padLeft img ar ≤ x ∧ x < padLeft img ar + img.W) →
      (pad_image img ar).pix y x c = 0) ∧
    ((padLeft img ar + padRight img ar) % 2 = 1 →
      padRight img ar = padLeft img ar + 1) ∧
    ((padTop img ar + padBottom img ar) % 2 = 1 →
      padBottom img ar = padTop img ar + 1) := by
  refine ⟨?_, ?_, ?_, ?_⟩
  · intro y x c hy hx
    rw [pad_image_eq]
    exact padConstant_pix_in img _ _ _ _ y x c hy hx
  · intro y x c h
    rw [pad_image_eq]
    exact padConstant_pix_out img _ _ _ _ y x c h
  · by_cases h : (img.W : ℚ) / (img.H : ℚ) < ar
    · have htw := targetWidth_ge img ar h hH
      rw [padLeft_of_lt h, padRight_of_lt h,
        Int.fdiv_eq_ediv _ (by norm_num : (0 : ℤ) ≤ 2)]
      omega
    · rw [padLeft_of_ge h, padRight_of_ge h]
      omega
  · by_cases h : (img.W : ℚ) / (img.H : ℚ) < ar
    · rw [padTop_of_lt h, padBottom_of_lt h]
      omega
    · have hth := targetHeight_ge img ar h har
      rw [padTop_of_ge h, padBottom_of_ge h,
        Int.fdiv_eq_ediv _ (by norm_num : (0 : ℤ) ≤ 2)]
      omega

/-- C3, witness: the preservation clause applied to the concrete 100×200×3
frame with target ratio 3/4 at pixel (0, 0, 0). -/
theorem C3_content_preservation_witness :
    0 < ex100.H ∧ 0 < ex100.W ∧ (0 : ℚ) < 3/4 ∧
    (pad_image ex100 (3/4)).pix (padTop ex100 (3/4) + 0)
      (padLeft ex100 (3/4) + 0) 0 = ex100.pix 0 0 0 :=
  ⟨by decide, by decide, by norm_num,
    (C3_content_preservation ex100 (3/4) (by decide) (by decide)
      (by norm_num)).1 0 0 0 (by decide) (by decide)⟩

/-- Numeric value of a list of decimal digit characters. -/
def digitsVal (cs : List Char) : ℕ :=
  cs.foldl (fun a c => 10 * a + (c.toNat - '0'.toNat)) 0

/-- Model of Python's `int(s)` on a string: an optional single leading sign
followed by at least one decimal digit parses to that integer, anything else
raises `ValueError` (modelled as `none`). -/
def pyParseInt (s : String) : Option ℤ :=
  match s.toList with
  | [] => none
  | '+' :: rest =>
      if rest ≠ [] ∧ rest.all Char.isDigit then some (digitsVal rest : ℤ)
      else none
  | '-' :: rest =>
      if rest ≠ [] ∧ rest.all Char.isDigit then some (-(digitsVal rest : ℤ))
      else none
  | cs =>
      if cs.all Char.isDigit then some (digitsVal cs : ℤ)
      else none

/-- Embedding of `VideoReader.__init__` (`inference.py` lines 49-54): the
stored `file_name` after `try: self.file_name = int(file_name) except
ValueError: pass` — an integer device index when the bare string parses as an
integer, otherwise the string itself. -/
def videoReader_init (file_name : String) : ℤ ⊕ String :=
  match pyParseInt file_name with
  | some n => Sum.inl n
  | none => Sum.inr file_name

/-- Operations the `VideoReader` performs on the underlying cv2 capture
handle.  `acquire` is the `cv2.VideoCapture(...)` call in `__iter__`,
`readFrame` is `self.cap.read()` in `__next__`, and `release` is the cv2
`release()` call (which the source never performs). -/
inductive CapOp where
  | acquire : CapOp
  | readFrame : CapOp
  | release : CapOp
deriving DecidableEq

/-- Channel swap performed by `cv2.cvtColor(img, cv2.COLOR_BGR2RGB)`
(`inference.py` line 66). -/
def bgr2rgb (f : Img) : Img :=
  { f with pix := fun y x c => f.pix y x (2 - c) }

/-- Embedding of `VideoReader.__next__` (lines 62-66) over a capture state
holding the remaining frames: a successful `cap.read()` yields the next frame
converted to RGB, a failed read raises `StopIteration` (modelled as
`none`). -/
def videoReaderNext (fs : List Img) : Option (Img × List Img) :=
  match fs with
  | [] => none
  | f :: r => some (bgr2rgb f, r)

/-- Frames yielded by iterating the `VideoReader` to exhaustion: each step is
one `__next__` call, the final failing read terminates the loop via
`StopIteration`. -/
def videoReaderFrames : List Img → List Img
  | [] => []
  | f :: r => bgr2rgb f :: videoReaderFrames r

lemma videoReaderFrames_eq_next (fs : List Img) :
    videoReaderFrames fs =
      match videoReaderNext fs with
      | none => []
      | some (f, r) => f :: videoReaderFrames r := by
  cases fs <;> rfl

/-- Capture-handle operations performed by the sequence of `__next__` calls
that drains a stream of the given frames: one successful read per frame and
one final failing read (the one that raises `StopIteration`). -/
def videoReaderReadOps : List Img → List CapOp
  | [] => [CapOp.readFrame]
  | _ :: r => CapOp.readFrame :: videoReaderReadOps r

/-- Capture-handle operations of a full successful iteration of
`VideoReader`: the `cv2.VideoCapture` acquisition in `__iter__` followed by
the reads of the draining loop.  No method of the class ever calls
`release()`. -/
def videoReaderRunOps (fs : List Img) : List CapOp :=
  CapOp.acquire :: videoReaderReadOps fs

/-- Capture-handle operations when the source cannot be opened: `__iter__`
constructs the capture, `isOpened()` fails and `IOError` is raised with no
further capture operation. -/
def videoReaderFailedOpenOps : List CapOp := [CapOp.acquire]

/-- Error taxonomy of the frame source: the `IOError` of
`VideoReader.__iter__` (the spec's `SourceUnavailable`). -/
inductive SourceError where
  | sourceUnavailable : SourceError
deriving DecidableEq

/-- Embedding of `VideoReader.__iter__` (lines 56-60): opening succeeds, or
`IOError` (`SourceUnavailable`) is raised exactly when the underlying
device/file cannot be opened (`isOpened()` is false). -/
def videoReaderIter (canOpen : Bool) : Except SourceError Unit :=
  if canOpen then Except.ok () else Except.error SourceError.sourceUnavailable

/-- A run of the `__main__` loop over a video source: the open failure of
`__iter__` propagates uncaught (aborting the run, no retry anywhere in the
source), otherwise the loop drains the stream. -/
def runVideo (canOpen : Bool) (fs : List Img) : Except SourceError (List Img) :=
  match videoReaderIter canOpen with
  | Except.error e => Except.error e
  | Except.ok _ => Except.ok (videoReaderFrames fs)

/-- Embedding of the still-image branch of `__main__` (line 142):
`reader = [np.array(Image.open(input_path))]`, a one-element sequence. -/
def stillReader (img : Img) : List Img := [img]

/-- C4, counterexample: `VideoReader.__init__` receives only the bare,
untagged identifier string, and selects the camera variant for "0" and the
file variant for "sample.mp4" purely according to whether `int()` parsing
succeeds — the selection is inferred by attempting the parse and catching
`ValueError`, not supplied by an injected tagged descriptor, refuting the
claim. -/
theorem C4_injected_descriptor_counterexample :
    pyParseInt "0" = some 0 ∧
    videoReader_init "0" = Sum.inl 0 ∧
    pyParseInt "sample.mp4" = none ∧
    videoReader_init "sample.mp4" = Sum.inr "sample.mp4" := by
  refine ⟨by decide, by decide, by decide, by decide⟩

/-- C4, amended: the camera/file choice is made inside the constructor by
attempting to parse the identifier as an integer and catching the parse
failure: an identifier that parses as an integer selects a camera device
index, any other identifier is kept as a file path; no tagged source
descriptor is injected by the caller. -/
theorem C4_selection_by_parsing (s : String) :
    (∀ n : ℤ, pyParseInt s = some n → videoReader_init s = Sum.inl n) ∧
    (pyParseInt s = none → videoReader_init s = Sum.inr s) := by
  constructor
  · intro n h
    unfold videoReader_init
    rw [h]
  · intro h
    unfold videoReader_init
    rw [h]

/-- C4, witness: the amended theorem applied to the identifier "7". -/
theorem C4_selection_by_parsing_witness :
    pyParseInt "7" = some 7 ∧ videoReader_init "7" = Sum.inl 7 :=
  ⟨by decide, (C4_selection_by_parsing "7").1 7 (by decide)⟩

/-- C5, counterexample: iterating a `VideoReader` over an empty stream to
end-of-stream acquires the capture handle but the trace of capture operations
contains no `release` — the handle is not released on the end-of-stream exit
path, refuting the claim. -/
theorem C5_release_counterexample :
    CapOp.acquire ∈ videoReaderRunOps [] ∧
    CapOp.release ∉ videoReaderRunOps [] := by
  constructor
  · show CapOp.acquire ∈ [CapOp.acquire, CapOp.readFrame]
    decide
  · show CapOp.release ∉ [CapOp.acquire, CapOp.readFrame]
    decide

/-- C5, amended: the capture handle is acquired at iteration start but never
explicitly released: no exit path of the source — full drain to end-of-stream
for any frame count, nor the failed-open error path — ever performs a
`release` operation (the code contains no `cap.release()` call; the handle is
left to garbage collection). -/
theorem C5_never_released (fs : List Img) :
    CapOp.acquire ∈ videoReaderRunOps fs ∧
    CapOp.release ∉ videoReaderRunOps fs ∧
    CapOp.release ∉ videoReaderFailedOpenOps := by
  refine ⟨List.mem_cons_self _ _, ?_, by decide⟩
  intro hmem
  rw [videoReaderRunOps, List.mem_cons] at hmem
  rcases hmem with h | h
  · exact absurd h (by decide)
  · induction fs with
    | nil =>
        rw [videoReaderReadOps, List.mem_singleton] at h
        exact absurd h (by decide)
    | cons f r ih =>
        rw [videoReaderReadOps, List.mem_cons] at h
        rcases h with h | h
        · exact absurd h (by decide)
        · exact ih h

/-- C5, witness: the amended theorem applied to the one-frame stream. -/
theorem C5_never_released_witness :
    CapOp.acquire ∈ videoReaderRunOps [ex100] ∧
    CapOp.release ∉ videoReaderRunOps [ex100] ∧
    CapOp.release ∉ videoReaderFailedOpenOps :=
  C5_never_released [ex100]

/-- C6: `VideoReader.__iter__` raises `SourceUnavailable` if and only if the
underlying device/file cannot be opened; the error propagates uncaught and
aborts the run (no retry), and a successfully opened source completes the
whole run without this error. -/
theorem C6_source_unavailable_iff :
    (∀ canOpen : Bool,
      videoReaderIter canOpen = Except.error SourceError.sourceUnavailable ↔
        canOpen = false) ∧
    (∀ fs : List Img,
      runVideo false fs = Except.error SourceError.sourceUnavailable) ∧
    (∀ fs : List Img, runVideo true fs = Except.ok (videoReaderFrames fs)) := by
  refine ⟨fun canOpen => ?_, fun fs => rfl, fun fs => rfl⟩
  cases canOpen <;> simp [videoReaderIter]

/-- C6, witness: the iff of `C6_source_unavailable_iff` applied to the
concrete unopenable source. -/
theorem C6_source_unavailable_iff_witness :
    videoReaderIter false = Except.error SourceError.sourceUnavailable :=
  (C6_source_unavailable_iff.1 false).mpr rfl

/-- C7: the still-image reader of `__main__` yields exactly one frame, and a
`VideoReader` over a stream of N frames yields exactly those N frames (in
RGB), terminating via the `StopIteration` of the final failing read
(`videoReaderNext` returning `none`), not via an error. -/
theorem C7_frame_cardinality :
    (∀ img : Img, (stillReader img).length = 1) ∧
    (∀ fs : List Img, videoReaderFrames fs = fs.map bgr2rgb) ∧
    (∀ fs : List Img, (videoReaderFrames fs).length = fs.length) ∧
    videoReaderNext [] = none := by
  have hmap : ∀ fs : List Img, videoReaderFrames fs = fs.map bgr2rgb := by
    intro fs
    induction fs with
    | nil => rfl
    | cons f r ih => rw [videoReaderFrames, List.map_cons, ih]
  refine ⟨fun img => rfl, hmap, fun fs => ?_, rfl⟩
  rw [hmap, List.length_map]

/-- First-occurrence running maximum over a list of heatmap cells: `i` is the
index of the next cell, `bi`/`bv` the index and value of the best cell so
far; a later cell replaces the best only when strictly larger. -/
def argmaxAux : List ℚ → ℕ → ℕ → ℚ → ℕ × ℚ
  | [], _, bi, bv => (bi, bv)
  | a :: r, i, bi, bv =>
      if bv < a then argmaxAux r (i + 1) i a else argmaxAux r (i + 1) bi bv

/-- Index and value of the first maximum of a flattened heatmap (index 0 and
value 0 on the empty map). -/
def argmaxFlat : List ℚ → ℕ × ℚ
  | [] => (0, 0)
  | a :: r => argmaxAux r 1 0 a

/-- Modelled from the spec: the peak-localization step of the heatmap decoder
(`keypoints_from_heatmaps` lives in `utils/top_down_eval.py`, outside the
sources at hand).  Spec §4.3 step 1: for a joint's spatial map, find the
integer (row, col) of the maximum value (first occurrence, as `np.argmax`
over the flattened map) and record that value as raw confidence; the location
is reported as an `(x, y) = (col, row)` pair. -/
def decodeJoint (hm : List (List ℚ)) : (ℕ × ℕ) × ℚ :=
  let w := (hm.headD []).length
  let best := argmaxFlat hm.flatten
  ((best.1 % w, best.1 / w), best.2)

/-- Modelled from the spec: `keypoints_from_heatmaps` on one subject — per
joint, an `[x, y]` coordinate row and a raw peak confidence, joint order
taken from the heatmap list.  Sub-pixel refinement and the affine transform
back to image space act on each coordinate component separately and are
omitted; they change neither component order nor joint order. -/
def keypoints_from_heatmaps (heatmaps : List (List (List ℚ))) :
    List (List ℚ) × List ℚ :=
  (heatmaps.map (fun hm =>
      [((decodeJoint hm).1.1 : ℚ), ((decodeJoint hm).1.2 : ℚ)]),
    heatmaps.map (fun hm => (decodeJoint hm).2))

/-- Embedding of the assembly step of `inference` (`inference.py` line 91),
`np.concatenate([points[:, :, ::-1], prob], axis=2)`, on the per-joint rows:
reverse each length-2 coordinate row and append the joint's confidence. -/
def assembleKeypoints (points : List (List ℚ)) (prob : List ℚ) :
    List (List ℚ) :=
  List.zipWith (fun xy c => xy.reverse ++ [c]) points prob

/-- The per-joint output rows of `inference` for one subject: the decoder's
points and confidences fed through the assembly step. -/
def inferenceKeypoints (heatmaps : List (List (List ℚ))) : List (List ℚ) :=
  assembleKeypoints (keypoints_from_heatmaps heatmaps).1
    (keypoints_from_heatmaps heatmaps).2

lemma argmaxAux_of_le (l : List ℚ) (bv : ℚ) (h : ∀ x ∈ l, x ≤ bv) :
    ∀ i bi, argmaxAux l i bi bv = (bi, bv) := by
  induction l with
  | nil => intro i bi; rfl
  | cons a r ih =>
      intro i bi
      rw [argmaxAux, if_neg (not_lt.mpr (h a (List.mem_cons_self a r)))]
      exact ih (fun x hx => h x (List.mem_cons_of_mem a hx)) _ _

lemma argmaxFlat_of_zero (l : List ℚ) (h : ∀ x ∈ l, x = 0) :
    argmaxFlat l = (0, 0) := by
  cases l with
  | nil => rfl
  | cons a r =>
      rw [argmaxFlat, h a (List.mem_cons_self a r)]
      exact argmaxAux_of_le r 0
        (fun x hx => le_of_eq (h x (List.mem_cons_of_mem a hx))) 1 0

lemma decodeJoint_of_zero (hm : List (List ℚ))
    (hz : ∀ row ∈ hm, ∀ v ∈ row, v = 0) :
    decodeJoint hm = ((0, 0), 0) := by
  have hflat : ∀ x ∈ hm.flatten, x = 0 := by
    intro x hx
    rw [List.mem_flatten] at hx
    obtain ⟨row, hr, hxr⟩ := hx
    exact hz row hr x hxr
  unfold decodeJoint
  rw [argmaxFlat_of_zero _ hflat]
  simp

/-- The all-zero 2×2 heatmap, the degenerate decode case. -/
def hmZero : List (List ℚ) := [[0, 0], [0, 0]]

/-- A 3×4 heatmap with a single peak of value 9 at row 2, column 1, so the
decoded coordinate pair is `(x, y) = (1, 2)` with distinct components. -/
def hmPeak : List (List ℚ) := [[0, 0, 0, 0], [0, 0, 0, 0], [0, 9, 0, 0]]

/-- C8, counterexample: for the heatmap with its peak at row 2, column 1, the
decoder's coordinate pair is `(x, y) = (1, 2)` with confidence 9, but the
assembly step of `inference` (the `[:, :, ::-1]` at line 91) emits the triple
`(2, 1, 9)` — the coordinate components are swapped, refuting the claimed
`(x, y, confidence)` component order. -/
theorem C8_component_order_counterexample :
    (keypoints_from_heatmaps [hmPeak]).1 = [[1, 2]] ∧
    (keypoints_from_heatmaps [hmPeak]).2 = [9] ∧
    inferenceKeypoints [hmPeak] = [[2, 1, 9]] ∧
    inferenceKeypoints [hmPeak] ≠ [[1, 2, 9]] := by
  refine ⟨by decide, by decide, by decide, by decide⟩

/-- C8, amended: in the assembly step, the j-th output row is that joint's
refined coordinate pair with its two components reversed (so `(y, x)` for a
decoder emitting `(x, y)`), concatenated with its confidence; the joint
ordering of the output equals the joint-axis ordering of the input (no
reindexing of joints). -/
theorem C8_assembly_swaps_components (points : List (List ℚ)) (prob : List ℚ)
    (j : ℕ) (xy : List ℚ) (c : ℚ)
    (h1 : points[j]? = some xy) (h2 : prob[j]? = some c) :
    (assembleKeypoints points prob)[j]? = some (xy.reverse ++ [c]) := by
  induction points generalizing prob j with
  | nil => simp at h1
  | cons p ps ih =>
      cases prob with
      | nil => simp at h2
      | cons q qs =>
          have hcons : assembleKeypoints (p :: ps) (q :: qs) =
              (p.reverse ++ [q]) :: assembleKeypoints ps qs := by
            simp [assembleKeypoints]
          cases j with
          | zero =>
              simp only [List.getElem?_cons_zero, Option.some.injEq] at h1 h2
              subst h1; subst h2
              rw [hcons, List.getElem?_cons_zero]
          | succ k =>
              simp only [List.getElem?_cons_succ] at h1 h2
              rw [hcons, List.getElem?_cons_succ]
              exact ih qs k h1 h2

/-- C8, witness: the amended theorem applied to the single joint with
coordinate row `[1, 2]` and confidence 9. -/
theorem C8_assembly_swaps_components_witness :
    (assembleKeypoints [[(1 : ℚ), 2]] [9])[0]? =
      some ([(1 : ℚ), 2].reverse ++ [9]) :=
  C8_assembly_swaps_components [[(1 : ℚ), 2]] [9] 0 [1, 2] 9 (by decide)
    (by decide)

/-- C9: a joint whose spatial heatmap is entirely zero decodes to the
fallback keypoint — location `(0, 0)` (the first-occurrence argmax of an
all-zero map) with confidence exactly 0 — and every sibling joint in the same
batch is decoded from its own map exactly as if the degenerate joint were
absent. -/
theorem C9_degenerate_heatmap (heatmaps : List (List (List ℚ))) (j : ℕ)
    (hm : List (List ℚ)) (hj : heatmaps[j]? = some hm)
    (hz : ∀ row ∈ hm, ∀ v ∈ row, v = 0) :
    (keypoints_from_heatmaps heatmaps).1[j]? = some [0, 0] ∧
    (keypoints_from_heatmaps heatmaps).2[j]? = some 0 ∧
    (∀ i : ℕ, (keypoints_from_heatmaps heatmaps).1[i]? =
      (heatmaps[i]?).map (fun m =>
        [((decodeJoint m).1.1 : ℚ), ((decodeJoint m).1.2 : ℚ)])) ∧
    (∀ i : ℕ, (keypoints_from_heatmaps heatmaps).2[i]? =
      (heatmaps[i]?).map (fun m => (decodeJoint m).2)) := by
  have hdec := decodeJoint_of_zero hm hz
  refine ⟨?_, ?_, fun i => ?_, fun i => ?_⟩
  · show (heatmaps.map _)[j]? = _
    rw [List.getElem?_map, hj]
    simp [hdec]
  · show (heatmaps.map _)[j]? = _
    rw [List.getElem?_map, hj]
    simp [hdec]
  · exact List.getElem?_map _ heatmaps i
  · exact List.getElem?_map _ heatmaps i

/-- C9, witness: the theorem applied to a batch holding the all-zero 2×2 map
at index 0. -/
theorem C9_degenerate_heatmap_witness :
    ([hmZero] : List (List (List ℚ)))[0]? = some hmZero ∧
    (keypoints_from_heatmaps [hmZero]).1[0]? = some [0, 0] ∧
    (keypoints_from_heatmaps [hmZero]).2[0]? = some 0 :=
  ⟨by decide,
    (C9_degenerate_heatmap [hmZero] 0 hmZero (by decide) (by decide)).1,
    (C9_degenerate_heatmap [hmZero] 0 hmZero (by decide) (by decide)).2.1⟩

/-- Model of Python's `s.rfind(c)` on the character list of `s`: the index of
the last occurrence of `c`, or `-1` when `c` does not occur. -/
def pyRFind (cs : List Char) (c : Char) : ℤ :=
  match cs with
  | [] => -1
  | a :: r =>
      let t := pyRFind r c
      if 0 ≤ t then t + 1
      else if a = c then 0 else -1

/-- Model of Python's slice `s[i:]` with its negative-index convention:
a negative `i` counts from the end, clamped at the start of the string. -/
def pySliceFrom (cs : List Char) (i : ℤ) : List Char :=
  if 0 ≤ i then cs.drop i.toNat
  else cs.drop ((cs.length : ℤ) + i).toNat

/-- The expression `input_path[input_path.rfind('.'):]` of `__main__`
(`inference.py` lines 122 and 139). -/
def extSlice (s : String) : String :=
  String.mk (pySliceFrom s.toList (pyRFind s.toList '.'))

/-- The dispatch condition of `__main__` line 139:
`input_path[input_path.rfind('.'):] in ['mp4']`. -/
def isVideoInput (s : String) : Bool :=
  (["mp4"] : List String).contains (extSlice s)

/-- The two frame-source variants `__main__` can build. -/
inductive Reader where
  | video : String → Reader
  | still : String → Reader
deriving DecidableEq

/-- Embedding of the reader dispatch of `__main__` (lines 139-142). -/
def selectReader (s : String) : Reader :=
  if isVideoInput s then Reader.video s else Reader.still s

lemma pyRFind_ge_neg_one (cs : List Char) (c : Char) : -1 ≤ pyRFind cs c := by
  induction cs with
  | nil => exact le_refl (-1)
  | cons a r ih =>
      rw [pyRFind]
      by_cases h : 0 ≤ pyRFind r c
      · rw [if_pos h]; omega
      · rw [if_neg h]
        by_cases ha : a = c
        · rw [if_pos ha]; decide
        · rw [if_neg ha]

lemma pyRFind_getElem (cs : List Char) (c : Char)
    (h : 0 ≤ pyRFind cs c) : cs[(pyRFind cs c).toNat]? = some c := by
  induction cs with
  | nil => simp [pyRFind] at h
  | cons a r ih =>
      rw [pyRFind]
      by_cases ht : 0 ≤ pyRFind r c
      · rw [if_pos ht]
        have : (pyRFind r c + 1).toNat = (pyRFind r c).toNat + 1 := by omega
        rw [this, List.getElem?_cons_succ]
        exact ih ht
      · rw [if_neg ht]
        by_cases ha : a = c
        · rw [if_pos ha]
          simp [ha]
        · exfalso
          rw [pyRFind, if_neg ht, if_neg ha] at h
          omega

lemma head?_drop (cs : List Char) (n : ℕ) : (cs.drop n).head? = cs[n]? := by
  induction cs generalizing n with
  | nil => simp
  | cons a r ih =>
      cases n with
      | zero => simp
      | succ k => simp [ih k]

/-- The dispatch condition of line 139 is false on every input: when the path
contains a dot the slice retains it (so it starts with `'.'` and cannot equal
`"mp4"`), and when it does not the slice has at most one character. -/
lemma isVideoInput_false (s : String) : isVideoInput s = false := by
  have hext : extSlice s ≠ "mp4" := by
    unfold extSlice pySliceFrom
    by_cases h : 0 ≤ pyRFind s.toList '.'
    · rw [if_pos h]
      intro hc
      have hlist : (s.toList.drop (pyRFind s.toList '.').toNat) =
          "mp4".toList := congrArg String.toList hc
      have hhead : (s.toList.drop (pyRFind s.toList '.').toNat).head? =
          some '.' := by
        rw [head?_drop]
        exact pyRFind_getElem s.toList '.' h
      rw [hlist] at hhead
      simp at hhead
    · rw [if_neg h]
      intro hc
      have hlist : (s.toList.drop
          (((s.toList.length : ℤ) + pyRFind s.toList '.').toNat)) =
          "mp4".toList := congrArg String.toList hc
      have hlen := congrArg List.length hlist
      rw [List.length_drop] at hlen
      have h1 : pyRFind s.toList '.' = -1 := by
        have := pyRFind_ge_neg_one s.toList '.'
        omega
      rw [h1] at hlen
      have : ("mp4".toList).length = 3 := by decide
      omega
  unfold isVideoInput
  simp only [List.contains_cons, List.contains_nil, Bool.or_false]
  exact beq_eq_false_iff_ne.mpr hext

/-- C10: the claim says a final extension of exactly `.mp4` selects the video
reader; the code instead compares the slice `input_path[rfind('.'):]` — which
still contains the leading dot — against the string `"mp4"`, so the
comparison never succeeds: `"video.mp4"` is dispatched to the still-image
branch, and indeed no input string at all selects the video reader. -/
theorem C10_mp4_dispatch_never_video :
    extSlice "video.mp4" = ".mp4" ∧
    isVideoInput "video.mp4" = false ∧
    selectReader "video.mp4" = Reader.still "video.mp4" ∧
    ∀ s : String, selectReader s = Reader.still s := by
  refine ⟨by decide, by decide, by decide, fun s => ?_⟩
  unfold selectReader
  rw [isVideoInput_false s]
  rfl

end VitPose
